import Mathlib

/-!
# Verification of the SignBridge backend (src/backend/server.py)

Shallow embedding of the temporal stabilizer / commit state machine
(`SignRecognizer.smooth_prediction`), the placeholder gesture classifier
(`SignRecognizer.classify`), the feature normalizer
(`SignRecognizer.extract_features`) and the websocket message loop
(`websocket_endpoint`), together with proofs about them.

Modelling conventions:
* Python floats (confidences, millisecond timestamps) are modelled as `ℚ`;
  landmark coordinates, which flow through `sqrt`, are modelled as `ℝ`.
* The wall clock (`time.time() * 1000`) is passed to each step as an input.
* The `deque(maxlen=10)` is a list with newest entries at the tail; appending
  to a full window drops the head.
* The `int(...)` coercions applied to the `ts` / `stable_ms` fields of the
  emitted payload are display-only truncations and are omitted: all decisions
  in the code are taken on the untruncated values.
-/

namespace SignBridge

/-- The payload returned by `SignRecognizer.smooth_prediction`
(`{"type": "prediction", "ts", "token", "confidence", "stable_ms", "commit"}`;
the constant `"type"` field is omitted). -/
structure PredictionEvent where
  ts : ℚ
  token : String
  confidence : ℚ
  stable_ms : ℚ
  commit : Bool
  deriving DecidableEq, Repr

/-- The mutable state of a `SignRecognizer` (fields set in `__init__`). -/
structure RecState where
  window : List (String × ℚ)
  last_commit_time : ℚ
  last_committed_token : Option String
  stable_start : Option ℚ
  deriving DecidableEq, Repr

/-- `SignRecognizer.__init__`: empty window, `last_commit_time = 0`,
`last_committed_token = None`, `stable_start = None`. -/
def initState : RecState :=
  { window := [], last_commit_time := 0, last_committed_token := none,
    stable_start := none }

/-- `deque(maxlen=10).append`: when the window is full the oldest entry is
evicted, then the new entry goes to the tail. -/
def windowPush (w : List (String × ℚ)) (x : String × ℚ) : List (String × ℚ) :=
  if w.length = 10 then w.tail ++ [x] else w ++ [x]

/-- `Counter(window_tokens)[t]`: how many entries of the window carry token `t`. -/
def cnt (t : String) (w : List (String × ℚ)) : ℕ :=
  w.countP (fun p => p.1 = t)

/-- The distinct tokens of the window in order of first occurrence — the
iteration order of `Counter(window_tokens)` (insertion-ordered dict). -/
def distinctTokens (w : List (String × ℚ)) : List String :=
  (w.map Prod.fst).foldl (fun acc t => if t ∈ acc then acc else acc ++ [t]) []

/-- `Counter(window_tokens).most_common(1)[0][0]`: a token of maximal count;
among tied counts the first-encountered token wins (Python `max` keeps the
first maximal element of the insertion-ordered iteration). The `"NONE"`
value for an empty window is dead code: the code returns early there. -/
def dominant (w : List (String × ℚ)) : String :=
  match distinctTokens w with
  | [] => "NONE"
  | d :: ds => ds.foldl (fun best t => if cnt best w < cnt t w then t else best) d

/-- `stability_ratio = count / len(window_tokens)`. -/
def stabilityRatio (w : List (String × ℚ)) : ℚ :=
  (cnt (dominant w) w : ℚ) / (w.length : ℚ)

/-- `[c for t, c in self.prediction_window if t == dominant_token]`. -/
def domConfs (w : List (String × ℚ)) : List ℚ :=
  (w.filter (fun p => p.1 = dominant w)).map Prod.snd

/-- `avg_confidence = np.mean(...)` over the dominant-token confidences. -/
def avgConf (w : List (String × ℚ)) : ℚ :=
  (domConfs w).sum / ((domConfs w).length : ℚ)

/-- `is_stable = stability_ratio >= 0.7 and avg_confidence >= 0.75 and
dominant_token != "NONE"`. -/
def isStable (w : List (String × ℚ)) : Prop :=
  7/10 ≤ stabilityRatio w ∧ 3/4 ≤ avgConf w ∧ dominant w ≠ "NONE"

instance (w : List (String × ℚ)) : Decidable (isStable w) :=
  decidable_of_iff (7/10 ≤ stabilityRatio w ∧ 3/4 ≤ avgConf w ∧ dominant w ≠ "NONE")
    Iff.rfl

/-- The value of `self.stable_start` after the stability-tracking block:
kept (or initialized to `now`) while stable, cleared otherwise. -/
def stableStartAfter (s : RecState) (w' : List (String × ℚ)) (now : ℚ) : Option ℚ :=
  if isStable w' then some (s.stable_start.getD now) else none

/-- The value of `stable_ms` after the stability-tracking block:
`now - stable_start` while stable (0 when `stable_start` is set this frame),
0 otherwise. -/
def stableMsVal (s : RecState) (w' : List (String × ℚ)) (now : ℚ) : ℚ :=
  if isStable w' then now - s.stable_start.getD now else 0

/-- The nested commit conditions, flattened to one conjunction:
`is_stable and stable_ms >= 400`, then `now - last_commit_time >= 1000`,
then `dominant_token != last_committed_token`. The innermost branch is the
only one with an effect, so the nesting is equivalent to the conjunction. -/
def commitFire (s : RecState) (w' : List (String × ℚ)) (now : ℚ) : Prop :=
  isStable w' ∧ 400 ≤ stableMsVal s w' now ∧
    1000 ≤ now - s.last_commit_time ∧ some (dominant w') ≠ s.last_committed_token

instance (s : RecState) (w' : List (String × ℚ)) (now : ℚ) :
    Decidable (commitFire s w' now) :=
  decidable_of_iff (isStable w' ∧ 400 ≤ stableMsVal s w' now ∧
    1000 ≤ now - s.last_commit_time ∧ some (dominant w') ≠ s.last_committed_token)
    Iff.rfl

/-- `SignRecognizer.smooth_prediction`: one frame of the stabilizer.
Inputs are the frame's `(token, confidence)` and the current time in ms;
output is the successor state and the emitted prediction payload.
`window_tokens` has the same length as the window, so the early return for
`len(window_tokens) == 0` is the `w'.length = 0` branch. -/
def step (s : RecState) (token : String) (confidence : ℚ) (now : ℚ) :
    RecState × PredictionEvent :=
  let w' := windowPush s.window (token, confidence)
  if w'.length = 0 then
    ({ s with window := w' },
     { ts := now, token := "NONE", confidence := 0, stable_ms := 0, commit := false })
  else
    if _fire : commitFire s w' now then
      ({ window := w', last_commit_time := now,
         last_committed_token := some (dominant w'),
         stable_start := stableStartAfter s w' now },
       { ts := now, token := dominant w', confidence := avgConf w',
         stable_ms := stableMsVal s w' now, commit := true })
    else
      ({ window := w', last_commit_time := s.last_commit_time,
         last_committed_token := s.last_committed_token,
         stable_start := stableStartAfter s w' now },
       { ts := now, token := dominant w', confidence := avgConf w',
         stable_ms := stableMsVal s w' now, commit := false })

/-- Feeding a list of `(token, confidence, now)` frames through the stabilizer,
collecting the emitted events in order. -/
def run : RecState → List (String × ℚ × ℚ) → RecState × List PredictionEvent
  | s, [] => (s, [])
  | s, (t, c, n) :: fs =>
    let r := step s t c n
    let rest := run r.1 fs
    (rest.1, r.2 :: rest.2)

/-- States of the stabilizer reachable from the initial state. -/
def Reachable (s : RecState) : Prop :=
  ∃ fs : List (String × ℚ × ℚ), (run initState fs).1 = s

/-!
## The server's sharing of stabilizer state across connections

`recognizer = SignRecognizer()` is created once at module level (line 221) and
`websocket_endpoint` uses that single instance for every connection. A
schedule interleaves frames from several connections, each frame tagged with
the id of the connection that sent it; every frame is processed against the
one shared state, and the resulting prediction is sent back on the
connection the frame came from. -/

/-- All connections' frames, in arrival order, tagged with the sending
connection's id: `(connection id, token, confidence, now)`. -/
def serverRun :
    RecState → List (ℕ × String × ℚ × ℚ) → RecState × List (ℕ × PredictionEvent)
  | s, [] => (s, [])
  | s, (c, t, cf, n) :: ms =>
    let r := step s t cf n
    let rest := serverRun r.1 ms
    (rest.1, (c, r.2) :: rest.2)

/-- The prediction events sent back to connection `c` over a schedule,
starting from the freshly imported module's recognizer state. -/
def eventsFor (c : ℕ) (sched : List (ℕ × String × ℚ × ℚ)) : List PredictionEvent :=
  ((serverRun initState sched).2.filter (fun p => p.1 = c)).map Prod.snd

/-- The frames connection `c` itself submitted over a schedule. -/
def framesFor (c : ℕ) (sched : List (ℕ × String × ℚ × ℚ)) : List (String × ℚ × ℚ) :=
  (sched.filter (fun m => m.1 = c)).map Prod.snd

/-!
## The websocket message loop (`websocket_endpoint`)

One inbound JSON message is one `ClientMsg`. For a `"frame"` message the
external collaborators (base64/JPEG decode, MediaPipe landmark detection,
feature extraction, classification) either produce a `(token, confidence)`
pair for `smooth_prediction` — `("NONE", 0.0)` when no hand is detected — or
raise while decoding; that outcome is recorded in the message. Messages with
any other `"type"` value fall through the `if` without a response, and a
message whose JSON or key lookup raises is `badPayload`. Any raised
exception escapes the `while True` loop to the `except Exception` handler,
which closes the websocket; the remaining messages are never received. -/
inductive ClientMsg where
  | frame (decoded : Option (String × ℚ)) (now : ℚ)
  | audio
  | audioFile
  | badPayload
  deriving DecidableEq

/-- Does processing this message raise an exception? -/
def raisesB : ClientMsg → Bool
  | .frame none _ => true
  | .badPayload => true
  | _ => false

/-- Is this a `"frame"` message whose image decodes? -/
def goodFrameB : ClientMsg → Bool
  | .frame (some _) _ => true
  | _ => false

/-- The `while True` receive loop of `websocket_endpoint`: returns the final
recognizer state, the events sent to the client in order, and whether the
connection was closed by the `except Exception` handler. -/
def connLoop : RecState → List ClientMsg → RecState × List PredictionEvent × Bool
  | s, [] => (s, [], false)
  | s, ClientMsg.frame (some (t, c)) now :: ms =>
    let r := step s t c now
    let rest := connLoop r.1 ms
    (rest.1, r.2 :: rest.2.1, rest.2.2)
  | s, ClientMsg.frame none _ :: _ => (s, [], true)
  | s, ClientMsg.audio :: ms => connLoop s ms
  | s, ClientMsg.audioFile :: ms => connLoop s ms
  | s, ClientMsg.badPayload :: _ => (s, [], true)

/-- After any step, a set `stable_start` certifies that the current window is
stable: the stability-tracking block clears `stable_start` whenever
stability is lost. -/
def StableInv (s : RecState) : Prop :=
  ∀ t : ℚ, s.stable_start = some t → isStable s.window

/-!
## No label commits twice in a row
-/

/-- The tokens of the committed events of a run, in order. -/
def commitTokens (evs : List PredictionEvent) : List String :=
  (evs.filter (fun e => e.commit)).map (fun e => e.token)

/-- The previously committed token viewed as a (0- or 1-element) prefix of
the commit history. -/
def prevList : Option String → List String
  | none => []
  | some t => [t]

/-!
## The alternating HELLO / NONE scenario
-/

/-- The token of the `i`-th frame (0-based) of the alternating scenario. -/
def altTok (i : ℕ) : String := if i % 2 = 0 then "HELLO" else "NONE"

/-- The first `n` frames `(HELLO, 0.9), (NONE, 0.9), (HELLO, 0.9), ...` at
frame times given by `f`. -/
def altFrames (f : ℕ → ℚ) (n : ℕ) : List (String × ℚ × ℚ) :=
  (List.range n).map (fun i => (altTok i, 9/10, f i))

/-- The stabilizer window after `k` alternating frames. -/
def altW : ℕ → List (String × ℚ)
  | 0 => []
  | k+1 => windowPush (altW k) (altTok k, 9/10)

/-!
## The placeholder classifier (`SignRecognizer.classify`)
-/

/-- `SignRecognizer.classify`: `None` features yield `("NONE", 0.0)`;
otherwise the mean of the last five entries (`features[-5:]`, the fingertip
distances) is bucketed against 0.3 / 0.5 / 0.7 into a fixed
`(token, confidence)` pair. `v.drop (v.length - 5)` is `v[-5:]` (the whole
list when it has fewer than five entries). -/
def classify (features : Option (List ℚ)) : String × ℚ :=
  match features with
  | none => ("NONE", 0)
  | some v =>
    let tip_distances := v.drop (v.length - 5)
    let avg_distance := tip_distances.sum / (tip_distances.length : ℚ)
    if avg_distance < 3/10 then ("STOP", 17/20)
    else if avg_distance < 1/2 then ("HELLO", 41/50)
    else if avg_distance < 7/10 then ("YES", 39/50)
    else ("NONE", 9/10)

/-!
## The feature normalizer (`SignRecognizer.extract_features`)

Landmark coordinates are modelled as real numbers. A landmark set is either
absent (`none`: `if not landmarks: return None`) or exactly 21 points, per
the upstream detector's invariant, so the non-empty case is a function
`Fin 21 → ℝ × ℝ × ℝ`. -/

/-- Componentwise subtraction of 3D points. -/
def sub3 (a b : ℝ × ℝ × ℝ) : ℝ × ℝ × ℝ :=
  (a.1 - b.1, a.2.1 - b.2.1, a.2.2 - b.2.2)

/-- Componentwise addition of 3D points. -/
def add3 (a b : ℝ × ℝ × ℝ) : ℝ × ℝ × ℝ :=
  (a.1 + b.1, a.2.1 + b.2.1, a.2.2 + b.2.2)

/-- Scalar multiple of a 3D point. -/
def smul3 (s : ℝ) (a : ℝ × ℝ × ℝ) : ℝ × ℝ × ℝ :=
  (s * a.1, s * a.2.1, s * a.2.2)

/-- Componentwise division of a 3D point by a scalar (`points / palm_size`). -/
noncomputable def divp3 (a : ℝ × ℝ × ℝ) (c : ℝ) : ℝ × ℝ × ℝ :=
  (a.1 / c, a.2.1 / c, a.2.2 / c)

/-- `np.linalg.norm` of a 3D point. -/
noncomputable def norm3 (a : ℝ × ℝ × ℝ) : ℝ :=
  Real.sqrt (a.1 ^ 2 + a.2.1 ^ 2 + a.2.2 ^ 2)

/-- `np.mean(points[[0, 5, 17]], axis=0)`: the componentwise mean of three
points. -/
noncomputable def mean3 (a b c : ℝ × ℝ × ℝ) : ℝ × ℝ × ℝ :=
  divp3 (add3 a (add3 b c)) 3

/-- `points = points - wrist`: translate so the wrist (index 0) is the
origin. -/
def translated (lm : Fin 21 → ℝ × ℝ × ℝ) : Fin 21 → ℝ × ℝ × ℝ :=
  fun i => sub3 (lm i) (lm 0)

/-- `palm_size = np.linalg.norm(points[9] - points[0])` on the translated
points. -/
noncomputable def palmSize (lm : Fin 21 → ℝ × ℝ × ℝ) : ℝ :=
  norm3 (sub3 (translated lm 9) (translated lm 0))

/-- `if palm_size > 0: points = points / palm_size` — the translated points
after the (conditionally skipped) scaling step. -/
noncomputable def normPts (lm : Fin 21 → ℝ × ℝ × ℝ) : Fin 21 → ℝ × ℝ × ℝ :=
  fun i =>
    if 0 < palmSize lm then divp3 (translated lm i) (palmSize lm)
    else translated lm i

/-- `points.flatten()` (63 scalars, x then y then z per landmark) followed by
the five fingertip-to-palm-center distances, tips `[4, 8, 12, 16, 20]` in
order. -/
noncomputable def featuresFrom (pts : Fin 21 → ℝ × ℝ × ℝ) : List ℝ :=
  (List.ofFn (fun i : Fin 21 => [(pts i).1, (pts i).2.1, (pts i).2.2])).flatten ++
    ([4, 8, 12, 16, 20] : List (Fin 21)).map
      (fun tip => norm3 (sub3 (pts tip) (mean3 (pts 0) (pts 5) (pts 17))))

/-- `SignRecognizer.extract_features`: `None` for an empty landmark set,
otherwise the 68-entry feature vector of the translated-and-scaled points. -/
noncomputable def extract_features (landmarks : Option (Fin 21 → ℝ × ℝ × ℝ)) :
    Option (List ℝ) :=
  landmarks.map fun lm => featuresFrom (normPts lm)

/-- Scaling all landmarks about the wrist by `s`. -/
def scaleAbout (s : ℝ) (lm : Fin 21 → ℝ × ℝ × ℝ) : Fin 21 → ℝ × ℝ × ℝ :=
  fun i => add3 (lm 0) (smul3 s (sub3 (lm i) (lm 0)))

/-- A concrete landmark set: point 9 at `(1, 0, 0)`, all others at the
origin; its palm size is 1. -/
noncomputable def witnessLm : Fin 21 → ℝ × ℝ × ℝ :=
  fun i => if i = 9 then (1, 0, 0) else (0, 0, 0)

lemma windowPush_ne_nil (w : List (String × ℚ)) (x : String × ℚ) :
    windowPush w x ≠ [] := by
  unfold windowPush
  split <;> simp

lemma windowPush_length_ne_zero (w : List (String × ℚ)) (x : String × ℚ) :
    ¬ (windowPush w x).length = 0 := by
  simp [List.length_eq_zero, windowPush_ne_nil]

/-- `step` never takes the dead empty-window branch. -/
lemma step_eq (s : RecState) (token : String) (confidence now : ℚ) :
    step s token confidence now =
      (let w' := windowPush s.window (token, confidence)
       if _fire : commitFire s w' now then
        ({ window := w', last_commit_time := now,
           last_committed_token := some (dominant w'),
           stable_start := stableStartAfter s w' now },
         { ts := now, token := dominant w', confidence := avgConf w',
           stable_ms := stableMsVal s w' now, commit := true })
       else
        ({ window := w', last_commit_time := s.last_commit_time,
           last_committed_token := s.last_committed_token,
           stable_start := stableStartAfter s w' now },
         { ts := now, token := dominant w', confidence := avgConf w',
           stable_ms := stableMsVal s w' now, commit := false })) := by
  unfold step
  rw [if_neg (windowPush_length_ne_zero _ _)]

lemma step_commit_iff (s : RecState) (token : String) (confidence now : ℚ) :
    (step s token confidence now).2.commit = true ↔
      commitFire s (windowPush s.window (token, confidence)) now := by
  rw [step_eq]
  by_cases fire : commitFire s (windowPush s.window (token, confidence)) now <;>
    simp [fire]

lemma step_commit_state (s : RecState) (token : String) (confidence now : ℚ)
    (h : (step s token confidence now).2.commit = true) :
    (step s token confidence now).1.last_commit_time = now ∧
      (step s token confidence now).1.last_committed_token =
        some (dominant (windowPush s.window (token, confidence))) := by
  rw [step_eq] at h ⊢
  by_cases fire : commitFire s (windowPush s.window (token, confidence)) now
  · simp [fire]
  · simp [fire] at h

lemma step_noncommit_state (s : RecState) (token : String) (confidence now : ℚ)
    (h : (step s token confidence now).2.commit = false) :
    (step s token confidence now).1.last_commit_time = s.last_commit_time ∧
      (step s token confidence now).1.last_committed_token =
        s.last_committed_token := by
  rw [step_eq] at h ⊢
  by_cases fire : commitFire s (windowPush s.window (token, confidence)) now
  · simp [fire] at h
  · simp [fire]

/-- The commit condition forces the dominant token to differ from the
previously committed one. -/
lemma step_commit_token (s : RecState) (token : String) (confidence now : ℚ)
    (h : (step s token confidence now).2.commit = true) :
    (step s token confidence now).2.token =
        dominant (windowPush s.window (token, confidence)) ∧
      some (dominant (windowPush s.window (token, confidence))) ≠
        s.last_committed_token := by
  have hfire := (step_commit_iff s token confidence now).1 h
  rw [step_eq]
  by_cases fire : commitFire s (windowPush s.window (token, confidence)) now
  · exact ⟨by simp [fire], hfire.2.2.2⟩
  · exact absurd hfire fire

/-- **C1.** For every frame processed by the stabilizer, the commit flag is set
exactly when the new window is stable, `stable_ms ≥ 400`, the global cooldown
`now - last_commit_time ≥ 1000` has elapsed, and the dominant token differs
from `last_committed_token`; and exactly when it fires, `last_commit_time` is
set to `now` and `last_committed_token` to the dominant token. -/
theorem commit_gate_spec (s : RecState) (token : String) (confidence now : ℚ) :
    ((step s token confidence now).2.commit = true ↔
      (isStable (windowPush s.window (token, confidence)) ∧
        400 ≤ stableMsVal s (windowPush s.window (token, confidence)) now ∧
        1000 ≤ now - s.last_commit_time ∧
        some (dominant (windowPush s.window (token, confidence))) ≠
          s.last_committed_token)) ∧
    ((step s token confidence now).2.commit = true →
      (step s token confidence now).1.last_commit_time = now ∧
        (step s token confidence now).1.last_committed_token =
          some (dominant (windowPush s.window (token, confidence)))) := by
  refine ⟨?_, step_commit_state s token confidence now⟩
  exact step_commit_iff s token confidence now

/-- Witness for C1 at a concrete committing frame: four stable `HELLO` frames
starting at t = 1000 ms, then a fifth at t = 1400 ms, which commits. -/
theorem commit_gate_spec_witness :
    (step (run initState
        [("HELLO", 9/10, 1000), ("HELLO", 9/10, 1100),
         ("HELLO", 9/10, 1200), ("HELLO", 9/10, 1300)]).1
      "HELLO" (9/10) 1400).1.last_commit_time = 1400 ∧
    (step (run initState
        [("HELLO", 9/10, 1000), ("HELLO", 9/10, 1100),
         ("HELLO", 9/10, 1200), ("HELLO", 9/10, 1300)]).1
      "HELLO" (9/10) 1400).1.last_committed_token = some "HELLO" := by
  have h := (commit_gate_spec (run initState
      [("HELLO", 9/10, 1000), ("HELLO", 9/10, 1100),
       ("HELLO", 9/10, 1200), ("HELLO", 9/10, 1300)]).1
    "HELLO" (9/10) 1400).2 (by with_unfolding_all decide)
  exact ⟨h.1, by rw [h.2]; with_unfolding_all decide⟩

/-- **C10.** On every frame where the commit gate does not fire,
`smooth_prediction` leaves `last_commit_time` and `last_committed_token`
unchanged; on a committing frame the two are updated together, to the frame
time and the dominant token. -/
theorem commit_fields_update_only_on_commit
    (s : RecState) (token : String) (confidence now : ℚ) :
    ((step s token confidence now).2.commit = false →
      (step s token confidence now).1.last_commit_time = s.last_commit_time ∧
        (step s token confidence now).1.last_committed_token =
          s.last_committed_token) ∧
    ((step s token confidence now).2.commit = true →
      (step s token confidence now).1.last_commit_time = now ∧
        (step s token confidence now).1.last_committed_token =
          some (dominant (windowPush s.window (token, confidence)))) :=
  ⟨step_noncommit_state s token confidence now,
   step_commit_state s token confidence now⟩

/-- Witness for C10 at a concrete non-committing frame: the very first frame
leaves both commit fields at their initial values. -/
theorem commit_fields_update_only_on_commit_witness :
    (step initState "HELLO" 1 0).1.last_commit_time = initState.last_commit_time ∧
      (step initState "HELLO" 1 0).1.last_committed_token =
        initState.last_committed_token :=
  (commit_fields_update_only_on_commit initState "HELLO" 1 0).1 (by with_unfolding_all decide)

/-- **C2, counterexample.** Stabilizer state is not scoped to one connection:
two schedules in which connection 0 submits exactly the same single frame,
but in the second of which connection 1 first submits a `NONE` frame, deliver
different prediction events to connection 0 (token `HELLO` vs token `NONE`) —
the two-run noninterference statement fails. -/
theorem stabilizer_not_connection_scoped :
    framesFor 0 [(0, "HELLO", 9/10, 50)] =
      framesFor 0 [(1, "NONE", 9/10, 0), (0, "HELLO", 9/10, 50)] ∧
    eventsFor 0 [(0, "HELLO", 9/10, 50)] ≠
      eventsFor 0 [(1, "NONE", 9/10, 0), (0, "HELLO", 9/10, 50)] := by
  with_unfolding_all decide

/-- **C2, amended.** The recognizer is a single process-wide instance shared
by all connections: every frame, from any connection, is processed against
the same stabilizer state, so the state evolution and the emitted event
sequence depend only on the interleaved frame payloads and ignore which
connection each frame came from (frames on one connection therefore shift
the stabilizer state seen by every other connection). -/
theorem stabilizer_shared_across_connections
    (s : RecState) (sched : List (ℕ × String × ℚ × ℚ)) :
    (serverRun s sched).1 = (run s (sched.map Prod.snd)).1 ∧
      (serverRun s sched).2.map Prod.snd = (run s (sched.map Prod.snd)).2 := by
  induction sched generalizing s with
  | nil => exact ⟨rfl, rfl⟩
  | cons m ms ih =>
    obtain ⟨c, t, cf, n⟩ := m
    simpa [serverRun, run] using ih (step s t cf n).1

/-- **C3, counterexample.** An `"audio"` message does not yield one speech
event: the loop matches only `"type" == "frame"`, so an audio chunk yields no
event at all. -/
theorem audio_message_no_event :
    (connLoop initState [ClientMsg.audio]).2.1 = [] := rfl

/-- **C3, amended.** Per consumed input unit: every decodable `"frame"`
message yields exactly one prediction event, while `"audio"`, `"audio_file"`
and all other non-`"frame"` messages yield no event (they are ignored
without a response): on an exception-free message list, the number of
emitted events equals the number of decodable frame messages. -/
theorem frame_event_counts (s : RecState) (ms : List ClientMsg)
    (h : ∀ m ∈ ms, raisesB m = false) :
    (connLoop s ms).2.1.length = ms.countP goodFrameB := by
  induction ms generalizing s with
  | nil => rfl
  | cons m ms ih =>
    have hm : raisesB m = false := h m (List.mem_cons_self m ms)
    have hms : ∀ m' ∈ ms, raisesB m' = false :=
      fun m' hmem => h m' (List.mem_cons_of_mem m hmem)
    match m with
    | ClientMsg.frame (some (t, c)) now =>
      simp [connLoop, List.countP_cons, goodFrameB, ih (step s t c now).1 hms]
    | ClientMsg.frame none now => simp [raisesB] at hm
    | ClientMsg.audio => simpa [connLoop, List.countP_cons, goodFrameB] using ih s hms
    | ClientMsg.audioFile => simpa [connLoop, List.countP_cons, goodFrameB] using ih s hms
    | ClientMsg.badPayload => simp [raisesB] at hm

/-- Witness for C3 (amended): one decodable frame followed by one audio chunk
produces exactly one event. -/
theorem frame_event_counts_witness :
    (connLoop initState
        [ClientMsg.frame (some ("HELLO", 9/10)) 0, ClientMsg.audio]).2.1.length =
      [ClientMsg.frame (some ("HELLO", 9/10)) 0, ClientMsg.audio].countP goodFrameB :=
  frame_event_counts initState
    [ClientMsg.frame (some ("HELLO", 9/10)) 0, ClientMsg.audio]
    (by with_unfolding_all decide)

/-- **C8, counterexample.** A single undecodable frame terminates the
connection and the subsequent well-formed frame is not processed: the loop
reports the connection closed and emits no event for the good frame. -/
theorem malformed_unit_closes_connection :
    (connLoop initState
        [ClientMsg.frame none 0,
         ClientMsg.frame (some ("HELLO", 9/10)) 50]).2.2 = true ∧
      (connLoop initState
        [ClientMsg.frame none 0,
         ClientMsg.frame (some ("HELLO", 9/10)) 50]).2.1 = [] := by
  with_unfolding_all decide

/-- **C8, amended.** A malformed or undecodable payload raises out of the
receive loop: the `except Exception` handler closes the connection, the
events delivered are exactly those of the units before the bad one, and no
subsequent unit is processed (the result does not depend on what follows the
bad unit). -/
theorem malformed_unit_aborts_rest (s : RecState) (pre : List ClientMsg)
    (m : ClientMsg) (post : List ClientMsg)
    (hm : raisesB m = true) (hpre : ∀ m' ∈ pre, raisesB m' = false) :
    connLoop s (pre ++ m :: post) =
      ((connLoop s pre).1, (connLoop s pre).2.1, true) := by
  induction pre generalizing s with
  | nil =>
    match m, hm with
    | ClientMsg.frame none now, _ => rfl
    | ClientMsg.badPayload, _ => rfl
  | cons m0 pre ih =>
    have hm0 : raisesB m0 = false := hpre m0 (List.mem_cons_self m0 pre)
    have hpre' : ∀ m' ∈ pre, raisesB m' = false :=
      fun m' hmem => hpre m' (List.mem_cons_of_mem m0 hmem)
    match m0 with
    | ClientMsg.frame (some (t, c)) now =>
      simp [connLoop, ih (step s t c now).1 hpre']
    | ClientMsg.frame none now => simp [raisesB] at hm0
    | ClientMsg.audio => simpa [connLoop] using ih s hpre'
    | ClientMsg.audioFile => simpa [connLoop] using ih s hpre'
    | ClientMsg.badPayload => simp [raisesB] at hm0

/-- Witness for C8 (amended): one good frame, then a malformed payload, then
an audio chunk; the loop stops at the malformed payload with the connection
closed. -/
theorem malformed_unit_aborts_rest_witness :
    connLoop initState
        ([ClientMsg.frame (some ("HELLO", 1)) 0] ++
          ClientMsg.badPayload :: [ClientMsg.audio]) =
      ((connLoop initState [ClientMsg.frame (some ("HELLO", 1)) 0]).1,
        (connLoop initState [ClientMsg.frame (some ("HELLO", 1)) 0]).2.1, true) :=
  malformed_unit_aborts_rest initState [ClientMsg.frame (some ("HELLO", 1)) 0]
    ClientMsg.badPayload [ClientMsg.audio] rfl (by with_unfolding_all decide)

/-!
## Window counting lemmas and the no-commit-on-first-stable-frame property
-/

lemma cnt_append_singleton (t : String) (w : List (String × ℚ)) (x : String × ℚ) :
    cnt t (w ++ [x]) = cnt t w + if x.1 = t then 1 else 0 := by
  simp [cnt, List.countP_append, List.countP_cons]

lemma cnt_le_tail_succ (t : String) (w : List (String × ℚ)) :
    cnt t w ≤ cnt t w.tail + 1 := by
  cases w with
  | nil => simp [cnt]
  | cons a w =>
    simp only [cnt, List.tail_cons, List.countP_cons]
    split <;> omega

lemma cnt_add_cnt_le_length {A B : String} (hAB : A ≠ B)
    (w : List (String × ℚ)) : cnt A w + cnt B w ≤ w.length := by
  induction w with
  | nil => simp [cnt]
  | cons a w ih =>
    simp only [cnt, List.countP_cons, List.length_cons] at *
    split_ifs with h1 h2 <;> try omega
    exfalso
    simp only [decide_eq_true_eq] at h1 h2
    exact hAB (h1.symm.trans h2)

lemma isStable_ne_nil {w : List (String × ℚ)} (h : isStable w) : w ≠ [] := by
  intro hnil
  subst hnil
  have := h.1
  rw [stabilityRatio] at this
  norm_num at this

lemma isStable_cnt_bound {w : List (String × ℚ)} (h : isStable w) :
    7 * w.length ≤ 10 * cnt (dominant w) w := by
  have hne := isStable_ne_nil h
  have hlen : 0 < w.length := List.length_pos.mpr hne
  have hratio := h.1
  rw [stabilityRatio] at hratio
  have hlenQ : (0:ℚ) < (w.length : ℚ) := by exact_mod_cast hlen
  rw [div_le_div_iff₀ (by norm_num) hlenQ] at hratio
  have : (7:ℚ) * w.length ≤ 10 * cnt (dominant w) w := by linarith
  exact_mod_cast this

/-- Two consecutive windows cannot both be stable with different dominant
tokens: appending one frame moves each token's count by at most one, and two
tokens cannot both hold ≥ 70 % of adjacent windows. -/
lemma stable_push_dominant_eq {w : List (String × ℚ)} (x : String × ℚ)
    (h1 : isStable w) (h2 : isStable (windowPush w x)) :
    dominant (windowPush w x) = dominant w := by
  by_contra hne
  have hL : 0 < w.length := List.length_pos.mpr (isStable_ne_nil h1)
  have hb1 := isStable_cnt_bound h1
  have hb2 := isStable_cnt_bound h2
  set A := dominant w with hA
  set B := dominant (windowPush w x) with hB
  have hBA : A ≠ B := fun h => hne h.symm
  by_cases hfull : w.length = 10
  · have hw : windowPush w x = w.tail ++ [x] := by
      rw [windowPush, if_pos hfull]
    have hlen' : (windowPush w x).length = 10 := by
      rw [hw]
      simp [List.length_tail, hfull]
    have htail : cnt A w ≤ cnt A (windowPush w x) + 1 := by
      calc cnt A w ≤ cnt A w.tail + 1 := cnt_le_tail_succ A w
        _ ≤ cnt A (windowPush w x) + 1 := by
          rw [hw, cnt_append_singleton]
          split <;> omega
    have hsum : cnt A (windowPush w x) + cnt B (windowPush w x) ≤ 10 :=
      hlen' ▸ cnt_add_cnt_le_length hBA (windowPush w x)
    rw [hfull] at hb1
    rw [hlen'] at hb2
    omega
  · have hw : windowPush w x = w ++ [x] := by
      rw [windowPush, if_neg hfull]
    have hlen' : (windowPush w x).length = w.length + 1 := by
      rw [hw]; simp
    have hBle : cnt B (windowPush w x) ≤ cnt B w + 1 := by
      rw [hw, cnt_append_singleton]
      split <;> omega
    have hsum : cnt A w + cnt B w ≤ w.length := cnt_add_cnt_le_length hBA w
    rw [hlen'] at hb2
    omega

lemma stableInv_step (s : RecState) (token : String) (confidence now : ℚ) :
    StableInv (step s token confidence now).1 := by
  intro t ht
  rw [step_eq] at ht ⊢
  by_cases fire : commitFire s (windowPush s.window (token, confidence)) now <;>
    simp only [fire, dite_true, dite_false, if_pos, if_neg, dif_pos, dif_neg,
      not_false_iff] at ht ⊢ <;>
  · rw [stableStartAfter] at ht
    by_cases hst : isStable (windowPush s.window (token, confidence))
    · exact hst
    · simp [hst] at ht

lemma stableInv_run (s : RecState) (fs : List (String × ℚ × ℚ))
    (h : StableInv s) : StableInv (run s fs).1 := by
  induction fs generalizing s with
  | nil => exact h
  | cons f fs ih =>
    obtain ⟨t, c, n⟩ := f
    exact ih (step s t c n).1 (stableInv_step s t c n)

lemma reachable_stableInv {s : RecState} (h : Reachable s) : StableInv s := by
  obtain ⟨fs, hfs⟩ := h
  have : StableInv (run initState fs).1 :=
    stableInv_run initState fs (fun t ht => by simp [initState] at ht)
  rwa [hfs] at this

lemma stableMsVal_none {s : RecState} (hss : s.stable_start = none)
    (w' : List (String × ℚ)) (now : ℚ) : stableMsVal s w' now = 0 := by
  rw [stableMsVal, hss]
  split <;> simp

/-- **C4.** For every stabilizer state reachable from the initial state and
every single input frame with any token and any confidence (1.0 included),
if the frame is the first frame of a new dominant label — the dominant token
of the new window differs from the previous one, or there was no previous
frame — then the emitted event never has `commit = true`: `stable_ms ≥ 400`
cannot hold on the frame where stability begins. -/
theorem no_commit_on_first_frame_of_new_dominant
    (s : RecState) (token : String) (confidence now : ℚ)
    (hreach : Reachable s)
    (hnew : dominant (windowPush s.window (token, confidence)) ≠
        dominant s.window ∨ s.window = []) :
    (step s token confidence now).2.commit = false := by
  by_cases hcommit : (step s token confidence now).2.commit = true
  · exfalso
    have hfire := (step_commit_iff s token confidence now).1 hcommit
    obtain ⟨hst, hms, -, -⟩ := hfire
    cases hss : s.stable_start with
    | none =>
      rw [stableMsVal_none hss] at hms
      norm_num at hms
    | some t0 =>
      have hwstable : isStable s.window := reachable_stableInv hreach t0 hss
      have hdom := stable_push_dominant_eq (token, confidence) hwstable hst
      rcases hnew with hdomne | hwnil
      · exact hdomne hdom
      · exact isStable_ne_nil hwstable hwnil
  · simpa using hcommit

/-- Witness for C4: from the initial state (reachable by the empty run), a
maximal-confidence `HELLO` frame does not commit. -/
theorem no_commit_on_first_frame_of_new_dominant_witness :
    (step initState "HELLO" 1 5000).2.commit = false :=
  no_commit_on_first_frame_of_new_dominant initState "HELLO" 1 5000
    ⟨[], rfl⟩ (Or.inr rfl)

lemma commit_chain_aux (fs : List (String × ℚ × ℚ)) :
    ∀ s : RecState, List.Chain' (· ≠ ·)
      (prevList s.last_committed_token ++ commitTokens (run s fs).2) := by
  induction fs with
  | nil =>
    intro s
    cases s.last_committed_token <;> simp [prevList, commitTokens, run]
  | cons f fs ih =>
    intro s
    obtain ⟨t, c, n⟩ := f
    simp only [run]
    by_cases hc : (step s t c n).2.commit = true
    · have htok := step_commit_token s t c n hc
      have hstate := step_commit_state s t c n hc
      have ihs := ih (step s t c n).1
      rw [hstate.2] at ihs
      have hct : commitTokens ((step s t c n).2 :: (run (step s t c n).1 fs).2) =
          (step s t c n).2.token :: commitTokens ((run (step s t c n).1 fs).2) := by
        simp [commitTokens, hc]
      rw [hct, htok.1]
      cases hlc : s.last_committed_token with
      | none => simpa [prevList] using ihs
      | some t0 =>
        rw [hlc] at htok
        have hne : t0 ≠ dominant (windowPush s.window (t, c)) := by
          intro h
          exact htok.2 (by rw [h])
        simp only [prevList, List.singleton_append, List.chain'_cons]
        exact ⟨hne, by simpa [prevList] using ihs⟩
    · have hcf : (step s t c n).2.commit = false := by simpa using hc
      have hstate := step_noncommit_state s t c n hcf
      have ihs := ih (step s t c n).1
      rw [hstate.2] at ihs
      have hct : commitTokens ((step s t c n).2 :: (run (step s t c n).1 fs).2) =
          commitTokens ((run (step s t c n).1 fs).2) := by
        simp [commitTokens, hcf]
      rw [hct]
      exact ihs

/-- **C5.** In any run of one stabilizer from the initial state, two
consecutive committed events never carry the same token: after a label
commits, that label cannot commit again — however much time elapses — until
a different label has committed (equivalently, been dominant) in between. -/
theorem no_consecutive_equal_commits (fs : List (String × ℚ × ℚ)) :
    List.Chain' (· ≠ ·) (commitTokens (run initState fs).2) := by
  simpa [prevList, initState] using commit_chain_aux fs initState

lemma altTok_add_two (k : ℕ) : altTok (k + 2) = altTok k := by
  simp [altTok, Nat.add_mod_right]

lemma altW_twelve : altW 12 = altW 10 := by with_unfolding_all decide

lemma altW_period (k : ℕ) (hk : 10 ≤ k) : altW (k + 2) = altW k := by
  induction k, hk using Nat.le_induction with
  | base => exact altW_twelve
  | succ n hn ih =>
    show windowPush (altW (n + 2)) (altTok (n + 2), 9/10) =
      windowPush (altW n) (altTok n, 9/10)
    rw [ih, altTok_add_two]

/-- From the second frame on, the dominant label of the alternating window
never reaches the 0.7 stability ratio. -/
lemma altW_ratio : ∀ k, 2 ≤ k → stabilityRatio (altW k) < 7/10 := by
  intro k
  induction k using Nat.strong_induction_on with
  | _ k ih =>
    intro hk
    by_cases hk12 : k < 12
    · interval_cases k <;> with_unfolding_all decide
    · push_neg at hk12
      have hper := altW_period (k - 2) (by omega)
      rw [show k - 2 + 2 = k from by omega] at hper
      rw [hper]
      exact ih (k - 2) (by omega) (by omega)

lemma altW_not_stable (k : ℕ) (hk : 2 ≤ k) : ¬ isStable (altW k) :=
  fun h => absurd h.1 (not_le.mpr (altW_ratio k hk))

lemma run_append (s : RecState) (as bs : List (String × ℚ × ℚ)) :
    run s (as ++ bs) =
      ((run (run s as).1 bs).1, (run s as).2 ++ (run (run s as).1 bs).2) := by
  induction as generalizing s with
  | nil => simp [run]
  | cons a as ih =>
    obtain ⟨t, c, n⟩ := a
    simp [run, ih]

lemma altFrames_succ (f : ℕ → ℚ) (n : ℕ) :
    altFrames f (n + 1) = altFrames f n ++ [(altTok n, 9/10, f n)] := by
  simp [altFrames, List.range_succ]

lemma step_not_fire (s : RecState) (t : String) (c now : ℚ)
    (h : ¬ commitFire s (windowPush s.window (t, c)) now) :
    step s t c now =
      ({ window := windowPush s.window (t, c),
         last_commit_time := s.last_commit_time,
         last_committed_token := s.last_committed_token,
         stable_start := stableStartAfter s (windowPush s.window (t, c)) now },
       { ts := now, token := dominant (windowPush s.window (t, c)),
         confidence := avgConf (windowPush s.window (t, c)),
         stable_ms := stableMsVal s (windowPush s.window (t, c)) now,
         commit := false }) := by
  rw [step_eq]
  simp [h]

/-- State and event invariant of the alternating scenario: after `n` frames
the window is `altW n`, the commit fields are untouched, `stable_start` is
set only right after the (stable) first frame, and no emitted event has
`commit = true`. -/
lemma alt_run_state (f : ℕ → ℚ) :
    ∀ n, (run initState (altFrames f n)).1 =
        ⟨altW n, 0, none, if n = 1 then some (f 0) else none⟩ ∧
      ∀ e ∈ (run initState (altFrames f n)).2, e.commit = false := by
  intro n
  induction n with
  | zero => exact ⟨rfl, by simp [altFrames, run]⟩
  | succ n ih =>
    obtain ⟨hstate, hev⟩ := ih
    rw [altFrames_succ, run_append, hstate]
    cases n with
    | zero =>
      have hfire : ¬ commitFire ⟨altW 0, 0, none, if 0 = 1 then some (f 0) else none⟩
          (windowPush (altW 0) (altTok 0, 9/10)) (f 0) := by
        rintro ⟨-, h400, -, -⟩
        rw [stableMsVal_none rfl] at h400
        norm_num at h400
      constructor
      · simp only [run, step_not_fire _ _ _ _ hfire]
        have hst : isStable (windowPush (altW 0) (altTok 0, 9/10)) := by
          with_unfolding_all decide
        simp only [stableStartAfter, hst, if_true]
        rfl
      · intro e he
        simp only [run, step_not_fire _ _ _ _ hfire, List.mem_append,
          List.mem_singleton] at he
        rcases he with he | he
        · exact hev e he
        · rw [he]
    | succ m =>
      have hunst : ¬ isStable (windowPush (altW (m + 1)) (altTok (m + 1), 9/10)) := by
        have hw : windowPush (altW (m + 1)) (altTok (m + 1), 9/10) = altW (m + 2) := rfl
        rw [hw]
        exact altW_not_stable (m + 2) (by omega)
      have hfire : ¬ commitFire ⟨altW (m + 1), 0, none,
          if m + 1 = 1 then some (f 0) else none⟩
          (windowPush (altW (m + 1)) (altTok (m + 1), 9/10)) (f (m + 1)) :=
        fun hf => hunst hf.1
      constructor
      · simp only [run, step_not_fire _ _ _ _ hfire]
        simp only [stableStartAfter, hunst, if_false]
        rw [if_neg (show ¬ (m + 1 + 1 = 1) by omega)]
        rfl
      · intro e he
        simp only [run, step_not_fire _ _ _ _ hfire, List.mem_append,
          List.mem_singleton] at he
        rcases he with he | he
        · exact hev e he
        · rw [he]

/-- **C6, counterexample.** On the very first frame of the alternating
scenario the window is `[(HELLO, 0.9)]`, so the stability ratio of the
dominant label is 1 and does reach 0.7 (frame times 0, 50, 100, ...). -/
theorem alternating_first_frame_ratio_reaches :
    7/10 ≤ stabilityRatio
      ((run initState (altFrames (fun i => 50 * (i : ℚ)) 1)).1.window) := by
  with_unfolding_all decide

/-- **C6, amended.** Feeding strictly alternating `(HELLO, 0.9)`,
`(NONE, 0.9)` frames (any frame times), the emitted commit flag is false on
every frame of the run, and from the second frame onward the stability ratio
of the dominant label stays below 0.7 (on the first frame alone the window
is a single `HELLO` entry and the ratio is 1). -/
theorem alternating_run_no_commit (f : ℕ → ℚ) (n : ℕ) :
    (run initState (altFrames f n)).2.countP (fun e => e.commit) = 0 ∧
      (2 ≤ n → (run initState (altFrames f n)).1.window = altW n ∧
        stabilityRatio ((run initState (altFrames f n)).1.window) < 7/10) := by
  obtain ⟨hstate, hev⟩ := alt_run_state f n
  constructor
  · rw [List.countP_eq_zero]
    intro e he
    simp [hev e he]
  · intro h2
    have hw : (run initState (altFrames f n)).1.window = altW n := by rw [hstate]
    exact ⟨hw, by rw [hw]; exact altW_ratio n h2⟩

/-- Witness for C6 (amended) at two frames with times 0 and 50. -/
theorem alternating_run_no_commit_witness :
    (run initState (altFrames (fun i => 50 * (i : ℚ)) 2)).1.window = altW 2 ∧
      stabilityRatio
        ((run initState (altFrames (fun i => 50 * (i : ℚ)) 2)).1.window) < 7/10 :=
  (alternating_run_no_commit (fun i => 50 * (i : ℚ)) 2).2 (by decide)

lemma classify_some_mem (v : List ℚ) :
    classify (some v) ∈
      ([("STOP", 17/20), ("HELLO", 41/50), ("YES", 39/50), ("NONE", 9/10)] :
        List (String × ℚ)) := by
  simp only [classify]
  split_ifs <;> simp

lemma domFold_mem (w : List (String × ℚ)) :
    ∀ (ds : List String) (d : String),
      ds.foldl (fun best t => if cnt best w < cnt t w then t else best) d ∈ d :: ds := by
  intro ds
  induction ds with
  | nil => intro d; simp
  | cons t ds ih =>
    intro d
    simp only [List.foldl_cons]
    by_cases h : cnt d w < cnt t w
    · rw [if_pos h]
      exact List.mem_cons_of_mem d (ih t)
    · rw [if_neg h]
      rcases List.mem_cons.mp (ih d) with h1 | h1
      · rw [h1]; exact List.mem_cons_self d _
      · exact List.mem_cons_of_mem d (List.mem_cons_of_mem t h1)

lemma foldl_insert_mem (l : List String) :
    ∀ (acc : List String) (x : String),
      x ∈ l.foldl (fun acc t => if t ∈ acc then acc else acc ++ [t]) acc →
        x ∈ acc ∨ x ∈ l := by
  induction l with
  | nil => exact fun acc x h => Or.inl h
  | cons a l ih =>
    intro acc x h
    simp only [List.foldl_cons] at h
    rcases ih _ x h with h1 | h1
    · by_cases ha : a ∈ acc
      · rw [if_pos ha] at h1
        exact Or.inl h1
      · rw [if_neg ha] at h1
        rcases List.mem_append.mp h1 with h2 | h2
        · exact Or.inl h2
        · simp only [List.mem_singleton] at h2
          exact Or.inr (h2 ▸ List.mem_cons_self a l)
    · exact Or.inr (List.mem_cons_of_mem a h1)

lemma foldl_insert_ne_nil (l : List String) :
    ∀ acc : List String, acc ≠ [] →
      l.foldl (fun acc t => if t ∈ acc then acc else acc ++ [t]) acc ≠ [] := by
  induction l with
  | nil => exact fun acc h => h
  | cons a l ih =>
    intro acc h
    simp only [List.foldl_cons]
    apply ih
    by_cases ha : a ∈ acc
    · rw [if_pos ha]; exact h
    · rw [if_neg ha]; simp

lemma distinctTokens_ne_nil {w : List (String × ℚ)} (hw : w ≠ []) :
    distinctTokens w ≠ [] := by
  rw [distinctTokens]
  cases w with
  | nil => exact absurd rfl hw
  | cons p w =>
    simp only [List.map_cons, List.foldl_cons]
    apply foldl_insert_ne_nil
    simp

lemma dominant_mem {w : List (String × ℚ)} (hw : w ≠ []) :
    dominant w ∈ w.map Prod.fst := by
  have hd : dominant w ∈ distinctTokens w := by
    unfold dominant
    cases hdt : distinctTokens w with
    | nil => exact absurd hdt (distinctTokens_ne_nil hw)
    | cons d ds => exact domFold_mem w ds d
  rw [distinctTokens] at hd
  rcases foldl_insert_mem (w.map Prod.fst) [] (dominant w) hd with h | h
  · simp at h
  · exact h

lemma cnt_dominant_pos {w : List (String × ℚ)} (hw : w ≠ []) :
    0 < cnt (dominant w) w := by
  obtain ⟨p, hpmem, hpfst⟩ := List.mem_map.mp (dominant_mem hw)
  rw [cnt, List.countP_pos_iff]
  exact ⟨p, hpmem, by simp [hpfst]⟩

lemma domConfs_length (w : List (String × ℚ)) :
    (domConfs w).length = cnt (dominant w) w := by
  simp [domConfs, cnt, List.countP_eq_length_filter]

lemma sum_ge_len_mul {l : List ℚ} {c : ℚ} (h : ∀ x ∈ l, c ≤ x) :
    c * l.length ≤ l.sum := by
  induction l with
  | nil => simp
  | cons a l ih =>
    simp only [List.sum_cons, List.length_cons]
    have ha := h a (List.mem_cons_self a l)
    have hl := ih (fun x hx => h x (List.mem_cons_of_mem a hx))
    push_cast
    linarith

/-- **C9.** The classifier's output range is exactly
`{(STOP, 0.85), (HELLO, 0.82), (YES, 0.78), (NONE, 0.9)}` for every non-null
feature vector, and `(NONE, 0.0)` for null input. Every non-`NONE` output
has confidence ≥ 0.78, so in a window whose dominant-label entries are all
classifier outputs with a non-`NONE` dominant, the average confidence is at
least 0.78 ≥ 0.75: the stabilizer's average-confidence gate is vacuous with
the placeholder classifier. -/
theorem classifier_range_gate_vacuous :
    (∀ v : List ℚ, classify (some v) ∈
        ([("STOP", 17/20), ("HELLO", 41/50), ("YES", 39/50), ("NONE", 9/10)] :
          List (String × ℚ))) ∧
      classify none = ("NONE", 0) ∧
      (∀ w : List (String × ℚ), w ≠ [] → dominant w ≠ "NONE" →
        (∀ p ∈ w, p.1 = dominant w → ∃ v : List ℚ, classify (some v) = p) →
        3/4 ≤ avgConf w) := by
  refine ⟨classify_some_mem, rfl, ?_⟩
  intro w hw hdom hcls
  have hlen : (0:ℚ) < ((domConfs w).length : ℚ) := by
    have hpos := cnt_dominant_pos hw
    rw [domConfs_length]
    exact_mod_cast hpos
  rw [avgConf, le_div_iff₀ hlen]
  have hbound : ∀ x ∈ domConfs w, 39/50 ≤ x := by
    intro x hx
    obtain ⟨p, hpmem, hpx⟩ := List.mem_map.mp hx
    have hpf := List.mem_filter.mp hpmem
    have hp1 : p.1 = dominant w := by simpa using hpf.2
    obtain ⟨v, hv⟩ := hcls p hpf.1 hp1
    have hrange := classify_some_mem v
    rw [hv] at hrange
    simp only [List.mem_cons, List.not_mem_nil, or_false] at hrange
    rcases hrange with h | h | h | h
    · rw [← hpx, h]; norm_num
    · rw [← hpx, h]; norm_num
    · rw [← hpx, h]
    · exact absurd ((congrArg Prod.fst h).symm.trans hp1).symm hdom
  have hsum := sum_ge_len_mul hbound
  have hnn : (0:ℚ) ≤ ((domConfs w).length : ℚ) := hlen.le
  linarith

/-- Witness for C9: a singleton window holding the classifier's `STOP`
output passes the average-confidence gate. -/
theorem classifier_range_gate_vacuous_witness :
    3/4 ≤ avgConf [("STOP", 17/20)] :=
  classifier_range_gate_vacuous.2.2 [("STOP", 17/20)]
    (by simp)
    (by with_unfolding_all decide)
    (fun p hp hp1 =>
      ⟨[0, 0, 0, 0, 0], by
        have hps : p = ("STOP", 17/20) := by simpa using hp
        rw [hps]
        with_unfolding_all decide⟩)

lemma translated_scaleAbout (s : ℝ) (lm : Fin 21 → ℝ × ℝ × ℝ) (i : Fin 21) :
    translated (scaleAbout s lm) i = smul3 s (translated lm i) := by
  simp only [translated, scaleAbout, sub3, smul3, add3, Prod.mk.injEq]
  refine ⟨by ring, by ring, by ring⟩

lemma sub3_smul3 (s : ℝ) (a b : ℝ × ℝ × ℝ) :
    sub3 (smul3 s a) (smul3 s b) = smul3 s (sub3 a b) := by
  simp only [sub3, smul3, Prod.mk.injEq]
  refine ⟨by ring, by ring, by ring⟩

lemma norm3_nonneg (a : ℝ × ℝ × ℝ) : 0 ≤ norm3 a := Real.sqrt_nonneg _

lemma norm3_smul3 {s : ℝ} (hs : 0 ≤ s) (v : ℝ × ℝ × ℝ) :
    norm3 (smul3 s v) = s * norm3 v := by
  simp only [norm3, smul3]
  rw [show (s * v.1) ^ 2 + (s * v.2.1) ^ 2 + (s * v.2.2) ^ 2
      = s ^ 2 * (v.1 ^ 2 + v.2.1 ^ 2 + v.2.2 ^ 2) from by ring]
  rw [Real.sqrt_mul (sq_nonneg s), Real.sqrt_sq hs]

lemma divp3_smul3 {s : ℝ} (hs : s ≠ 0) (v : ℝ × ℝ × ℝ) (c : ℝ) :
    divp3 (smul3 s v) (s * c) = divp3 v c := by
  simp only [divp3, smul3, Prod.mk.injEq]
  exact ⟨mul_div_mul_left _ _ hs, mul_div_mul_left _ _ hs, mul_div_mul_left _ _ hs⟩

lemma palmSize_nonneg (lm : Fin 21 → ℝ × ℝ × ℝ) : 0 ≤ palmSize lm :=
  norm3_nonneg _

lemma palmSize_scaleAbout {s : ℝ} (hs : 0 ≤ s) (lm : Fin 21 → ℝ × ℝ × ℝ) :
    palmSize (scaleAbout s lm) = s * palmSize lm := by
  rw [palmSize, palmSize, translated_scaleAbout, translated_scaleAbout,
    sub3_smul3, norm3_smul3 hs]

lemma normPts_scaleAbout {s : ℝ} (hs : 0 < s) {lm : Fin 21 → ℝ × ℝ × ℝ}
    (hp : palmSize lm ≠ 0) : normPts (scaleAbout s lm) = normPts lm := by
  have hp0 : 0 < palmSize lm := lt_of_le_of_ne (palmSize_nonneg lm) (Ne.symm hp)
  have hps : palmSize (scaleAbout s lm) = s * palmSize lm :=
    palmSize_scaleAbout hs.le lm
  have hp0' : 0 < palmSize (scaleAbout s lm) := by
    rw [hps]
    exact mul_pos hs hp0
  funext i
  simp only [normPts, if_pos hp0, if_pos hp0']
  rw [translated_scaleAbout, hps, divp3_smul3 hs.ne']

lemma featuresFrom_length (pts : Fin 21 → ℝ × ℝ × ℝ) :
    (featuresFrom pts).length = 68 := by
  simp [featuresFrom, List.length_flatten, List.map_ofFn]

lemma palmSize_witnessLm : palmSize witnessLm = 1 := by
  have h9 : witnessLm 9 = ((1 : ℝ), 0, 0) := if_pos rfl
  have h0 : witnessLm 0 = ((0 : ℝ), 0, 0) := if_neg (by decide)
  rw [palmSize]
  simp only [translated, h9, h0, sub3]
  norm_num [norm3, Real.sqrt_one]

/-- **C7.** For every non-empty landmark set of 21 points and every
positive scale factor `s`: if the palm size is nonzero, scaling all
landmarks about the wrist by `s` yields exactly the same 68-entry feature
vector; if the palm size is zero, the scaling division is skipped entirely
(the features are computed from the merely translated points), so no
division by zero occurs; and the feature vector always has 68 entries. -/
theorem extract_features_scale_invariant (lm : Fin 21 → ℝ × ℝ × ℝ) (s : ℝ)
    (hs : 0 < s) :
    (palmSize lm ≠ 0 →
        extract_features (some (scaleAbout s lm)) = extract_features (some lm)) ∧
      (palmSize lm = 0 →
        extract_features (some lm) = some (featuresFrom (translated lm))) ∧
      extract_features (some lm) = some (featuresFrom (normPts lm)) ∧
      (featuresFrom (normPts lm)).length = 68 := by
  refine ⟨?_, ?_, rfl, featuresFrom_length _⟩
  · intro hp
    show some (featuresFrom (normPts (scaleAbout s lm))) =
      some (featuresFrom (normPts lm))
    rw [normPts_scaleAbout hs hp]
  · intro hp
    show some (featuresFrom (normPts lm)) = some (featuresFrom (translated lm))
    have hneg : ¬ 0 < palmSize lm := by
      rw [hp]
      exact lt_irrefl 0
    have hnp : normPts lm = translated lm := by
      funext i
      simp only [normPts, if_neg hneg]
    rw [hnp]

/-- Witness for C7 at the concrete landmark set `witnessLm` (palm size 1)
and scale factor 2. -/
theorem extract_features_scale_invariant_witness :
    extract_features (some (scaleAbout 2 witnessLm)) =
      extract_features (some witnessLm) :=
  (extract_features_scale_invariant witnessLm 2 two_pos).1
    (palmSize_witnessLm.trans_ne one_ne_zero)

end SignBridge

